import Mathlib

/-!
Verification development for the secrets pipeline of this repository.

The file shallowly embeds the parts of the code the claims concern:

* `HttpValidator::validate` (crates/secrets-core/src/validator/http.rs) as a
  deterministic function over an oracle environment: durations and instants are
  `Nat` time units on a single explicit timeline, `thread::sleep(d)` advances
  the timeline by exactly `d`, an HTTP round-trip at index `k` advances it by
  `requestTime k`, and the response classifier, URL parser and rate limiter are
  oracles indexed by occurrence counts.
* `ScannerBuilder::try_build` / `compile_rule_mut` (crates/secrets/src/scanner.rs)
  over already-parsed rule descriptions (YAML parsing is an external concern);
  the Hyperscan pattern compiler, which lives outside the sources at hand, is an
  oracle.
* `PathPattern` and the `RawConfigFile → ConfigFile` conversion
  (crates/static-analysis-kernel/src/model/config_file.rs), with the `globset`
  crate's matching semantics (an external library) modelled for the token subset
  the configuration patterns use.
-/

namespace Secrets

/-- Stand-in for `SecretCategory` (defined outside the sources at hand); its
payload is irrelevant to every claim, only its identity matters. -/
structure SecretCategory where
  tag : Nat
deriving DecidableEq, Repr

/-- `NextAction` from crates/secrets-core/src/validator/http.rs (lines 82-93):
the decision returned by the response classifier. -/
inductive NextAction where
  | abort
  | retry
  | retryAfter (d : Nat)
  | returnResult (c : SecretCategory)
  | unhandled
deriving DecidableEq, Repr

/-- `HttpValidatorError` from crates/secrets-core/src/validator/http.rs
(lines 17-38). Boxed response payloads are dropped; `Duration` fields are `Nat`
time units. -/
inductive HttpValidatorError where
  | requestedAbort
  | invalidUrl
  | invalidMethod
  | retryTimeExceeded (attempted : Nat) (elapsed : Nat)
  | retryAttemptsExceeded (attempted : Nat) (elapsed : Nat)
  | retryWillExceedTime (attempted : Nat) (elapsed : Nat) (nextDelay : Nat)
  | unhandledResponse
deriving DecidableEq, Repr

/-- Outcome of one `validate` call. `stuck` is a modelling artefact: the
source's rate-limit loop is an unbounded `loop`, which the embedding runs on
fuel; `stuck` marks fuel exhaustion and corresponds to no return site. -/
inductive ValidateResult where
  | ok (c : SecretCategory)
  | err (e : HttpValidatorError)
  | stuck
deriving DecidableEq, Repr

/-- Oracle environment for one `HttpValidator::validate` call.

* `classify k` — the `NextAction` the response parser returns for the k-th
  HTTP request of this call (0-based); it abstracts the response/transport
  result together with the stored `response_parser` closure.
* `requestTime k` — wall-clock duration of the k-th HTTP round-trip.
* `urlOk k` — whether `Url::parse` succeeds on the URL formatted for the k-th
  attempt.
* `rlWait i t` — the rate limiter: for its i-th `check()` call at time `t`,
  `none` models `Ok` and `some w` models `Err(try_again_at)` with
  `try_again_at.wait_time_from(now) = w`. -/
structure ValidateEnv where
  maxAttemptDuration : Nat
  classify : Nat → NextAction
  requestTime : Nat → Nat
  urlOk : Nat → Bool
  rlWait : Nat → Nat → Option Nat

/-- Mutable state of one `validate` call, instrumented with the observables the
claims mention: `t` is `start_time.elapsed()`, `attempted` the source's counter,
`requests` the number of HTTP requests actually sent, `rlChecks` the number of
rate-limiter `check()` calls, `reqStarts` the elapsed time at which each request
was sent, and `sleeps` the post-attempt retry sleeps performed, in order. -/
structure VState where
  t : Nat
  attempted : Nat
  requests : Nat
  rlChecks : Nat
  reqStarts : List Nat
  sleeps : List Nat
deriving DecidableEq, Repr

/-- Outcome of the inner rate-limit `loop` of `validate` (http.rs lines
120-141): success with the post-loop state, an error return carrying the state
at the return site, or fuel exhaustion. -/
inductive RLOutcome where
  | ok (s : VState)
  | fail (e : HttpValidatorError) (s : VState)
  | spin
deriving DecidableEq, Repr

/-- The rate-limit loop of `validate` (http.rs lines 120-141): check the time
budget, query the limiter, and on `WaitUntil` either fail when the wait would
exceed the budget or sleep and retry. Fuel bounds the unbounded source loop. -/
def rateLimitLoop (env : ValidateEnv) : Nat → VState → RLOutcome
  | 0, _ => .spin
  | fuel + 1, s =>
    if s.t > env.maxAttemptDuration then
      .fail (.retryTimeExceeded s.attempted s.t) s
    else
      match env.rlWait s.rlChecks s.t with
      | none => .ok { s with rlChecks := s.rlChecks + 1 }
      | some w =>
        if s.t + w > env.maxAttemptDuration then
          .fail (.retryWillExceedTime s.attempted s.t w) s
        else
          rateLimitLoop env fuel { s with t := s.t + w, rlChecks := s.rlChecks + 1 }

/-- What the classifier's `NextAction` does to the control flow of `validate`
(http.rs lines 170-187): either return, or continue with the amount to sleep.
`RetryAfter` adds `checked_sub(peek).unwrap_or_default()` — truncated
subtraction against the peeked next delay — to the already-scheduled
`to_sleep = retry_delay` (http.rs lines 175-182). -/
inductive StepVerdict where
  | finish (r : ValidateResult)
  | continueWith (toSleep : Nat)
deriving DecidableEq, Repr

/-- See `StepVerdict`. `delay` is the current `retry_delay`; `peek` is
`iter.peek().copied().unwrap_or_default()`. -/
def actionVerdict (delay : Nat) (a : NextAction) (peek : Nat) : StepVerdict :=
  match a with
  | .abort => .finish (.err .requestedAbort)
  | .retry => .continueWith delay
  | .retryAfter h => .continueWith (delay + (h - peek))
  | .returnResult c => .finish (.ok c)
  | .unhandled => .finish (.err .unhandledResponse)

/-- The `while let Some(retry_delay) = iter.next()` loop of `validate`
(http.rs lines 109-210), by recursion on the remaining retry delays. Each
iteration: rate-limit loop, URL formatting/parsing, send the request
(incrementing `attempted`), classify, then — only when another delay remains —
check the time budget against `to_sleep` and sleep. An exhausted iterator
yields `RetryAttemptsExceeded`. Returns the result with the state at the
return site. -/
def validateGo (env : ValidateEnv) (fuel : Nat) :
    List Nat → VState → ValidateResult × VState
  | [], s => (.err (.retryAttemptsExceeded s.attempted s.t), s)
  | delay :: rest, s =>
    match rateLimitLoop env fuel s with
    | .spin => (.stuck, s)
    | .fail e s1 => (.err e, s1)
    | .ok s1 =>
      if env.urlOk s1.requests then
        let s2 : VState :=
          { s1 with
            attempted := s1.attempted + 1
            requests := s1.requests + 1
            t := s1.t + env.requestTime s1.requests
            reqStarts := s1.reqStarts ++ [s1.t] }
        match actionVerdict delay (env.classify s1.requests) (rest.head?.getD 0) with
        | .finish r => (r, s2)
        | .continueWith toSleep =>
          match rest with
          | [] => (.err (.retryAttemptsExceeded s2.attempted s2.t), s2)
          | _ :: _ =>
            if s2.t + toSleep ≥ env.maxAttemptDuration then
              (.err (.retryWillExceedTime s2.attempted s2.t toSleep), s2)
            else
              validateGo env fuel rest
                { s2 with t := s2.t + toSleep, sleeps := s2.sleeps ++ [toSleep] }
      else
        (.err .invalidUrl, s1)

/-- `HttpValidator::validate` on a given sequence of retry delays, from the
initial state (`start_time = now()`, counters zero). -/
def validate (env : ValidateEnv) (fuel : Nat) (delays : List Nat) :
    ValidateResult × VState :=
  validateGo env fuel delays ⟨0, 0, 0, 0, [], []⟩

/-- `RetryPolicy` from crates/secrets-core/src/validator/http.rs (lines 47-56).
The exponential factor is `f64` in the source; delays here are `Nat` time
units and the factor a `Nat` (the claims depend only on the sequence length). -/
inductive RetryPolicy where
  | exponential (base : Nat) (factor : Nat) (maximum : Nat)
  | fixed (duration : Nat)
deriving DecidableEq, Repr

/-- `RetryConfig` from crates/secrets-core/src/validator/http.rs (lines 40-45).
`use_jitter` scales each delay by a random factor in [0.5, 1.5]; it never
changes the number of delays, which is all the claims use, so it is omitted. -/
structure RetryConfig where
  max_attempts : Nat
  policy : RetryPolicy
deriving DecidableEq, Repr

/-- Modelled from the spec: the construction of the retry-delay iterator
(`retry_timings_iter`) from a `RetryConfig` lives outside the sources at hand;
the spec defines it as `Fixed(d) ↦ [d, d, …]` of length `max_attempts` and
`Exponential ↦ dᵢ = min(base · factorⁱ, maximum)` for `i ∈ [0, max_attempts)`. -/
def retryDelays (cfg : RetryConfig) : List Nat :=
  match cfg.policy with
  | .fixed d => List.replicate cfg.max_attempts d
  | .exponential base factor maximum =>
    (List.range cfg.max_attempts).map fun i => min (base * factor ^ i) maximum

/-- Concrete environment: classifier always `Retry`, no rate limiting,
instantaneous requests, generous budget. -/
def envAllRetry : ValidateEnv :=
  ⟨1000, fun _ => .retry, fun _ => 0, fun _ => true, fun _ _ => none⟩

/-- Concrete environment with a 5-unit budget, used to exercise
`RetryWillExceedTime`. -/
def envTight : ValidateEnv :=
  ⟨5, fun _ => .retry, fun _ => 0, fun _ => true, fun _ _ => none⟩

/-- Concrete environment whose first response carries `Retry-After: 30` and
whose second response resolves the validation. -/
def envRetryAfter30 : ValidateEnv :=
  ⟨1000, fun k => if k == 0 then .retryAfter 30 else .returnResult ⟨0⟩,
    fun _ => 0, fun _ => true, fun _ _ => none⟩

/-- Concrete environment whose rate limiter blocks the first check for 3 time
units and admits every later one. -/
def envLimited : ValidateEnv :=
  ⟨100, fun _ => .retry, fun _ => 0, fun _ => true,
    fun i _ => if i == 0 then some 3 else none⟩

/-- Concrete environment standing for a second `validate` call on a candidate
already submitted once: the classifier resolves immediately and the shared
rate limiter — the only cross-call state `validate` reads — was primed by the
first call, so its first check asks for a 2-unit wait. -/
def envSecondCall : ValidateEnv :=
  ⟨1000, fun _ => .returnResult ⟨0⟩, fun _ => 0, fun _ => true,
    fun i _ => if i == 0 then some 2 else none⟩

/-! ## Scanner builder (crates/secrets/src/scanner.rs)

`ScannerBuilder::try_build` / `compile_rule_mut` over already-parsed rule
descriptions: YAML deserialization is external, so a `RawRule` carries only
what `compile_rule_mut` inspects after parsing — the rule id, the matcher
pattern and the raw checks (scanner.rs lines 163-203). Check predicates
(`any-of`/`none-of` payloads) are never inspected during compilation and are
dropped. The Hyperscan pattern compiler (`HyperscanBuilder::add_regex`,
defined outside the sources at hand) is the oracle `regexOk`; successful
registration returns the next `PatternId`, here the pattern index. -/

/-- One raw check of a rule file: `compile_rule_mut` reads only its
`input_variable` string (scanner.rs line 188). -/
structure RawCheck where
  input_variable : String
deriving DecidableEq, Repr

/-- A parsed rule source: `raw_rule.id`, the Hyperscan matcher pattern and the
optional check list (scanner.rs lines 163-200, `RawRuleFile` fields used). -/
structure RawRule where
  id : String
  pattern : String
  checks : Option (List RawCheck)
deriving DecidableEq, Repr

/-- `CandidateVariable` from crate::rule_file: either the entire candidate or
one named capture. -/
inductive CandidateVariable where
  | entire
  | capture (name : String)
deriving DecidableEq, Repr

/-- Modelled from the spec: `parse_candidate_variable` (crate::rule_file) is
not among the sources at hand. The spec's interpolation grammar maps
`candidate` to the full match and `candidate.captures.<name>` to the named
capture; any other variable is unknown. The model takes the variable already
stripped of its `$\x7b\x7b ... \x7d\x7d` delimiters. -/
def parse_candidate_variable (s : String) : Option CandidateVariable :=
  if s = "candidate" then some .entire
  else if "candidate.captures.".toList.isPrefixOf s.toList ∧
      "candidate.captures.".toList.length < s.toList.length then
    some (.capture (String.mk (s.toList.drop "candidate.captures.".toList.length)))
  else none

/-- The target of a `TargetedChecker` (secrets-core rule API): the whole
candidate or a named capture. -/
inductive CheckTarget where
  | entire
  | namedCapture (name : String)
deriving DecidableEq, Repr

/-- `TargetedChecker::candidate(check)` resp.
`TargetedChecker::named_capture(name, check)` (scanner.rs lines 193-196), with
the check predicate payload dropped (never inspected at build time). -/
structure TargetedCheck where
  target : CheckTarget
deriving DecidableEq, Repr

/-- The built `Rule` (scanner.rs line 216): `Rule::new(rule_id, pattern_id,
validator_id, Vec::new(), checks)`, where the validator id is derived from the
rule id (scanner.rs line 209). -/
structure Rule where
  rule_id : String
  pattern_id : Nat
  validator_id : String
  checks : List TargetedCheck
deriving DecidableEq, Repr

/-- `ScannerBuilderError` from scanner.rs lines 58-70 (the `Io` payload is
dropped). -/
inductive ScannerBuilderError where
  | duplicateRuleId (id : String)
  | ruleCompilationError (rule : String) (message : String)
  | invalidYamlSyntax (message : String)
  | compilationError (message : String)
  | io
deriving DecidableEq, Repr

/-- The builder's mutable state during `try_build`: `rule_mapping` (HashMap
`RuleId → PatternId`, as an insertion-ordered association list), the patterns
registered with the Hyperscan builder (`PatternId` = index), and the built
rules. Built validators are summarized by the `validator_id` stored in each
rule. -/
structure BuilderState where
  rule_mapping : List (String × Nat)
  patterns : List String
  built_rules : List Rule
deriving DecidableEq, Repr

/-- The message of scanner.rs line 191 for a check variable that fails to
parse. -/
def invalidVariableMessage (v : String) : String :=
  "`" ++ v ++ "` is not a valid variable: expecting either \"candidate\" or a capture name prepended by \"candidate.captures.\""

/-- The check-translation loop of `compile_rule_mut` (scanner.rs lines
184-200): each raw check's input variable is parsed; an unparseable variable
aborts with `RuleCompilationError`, otherwise the check is targeted at the
candidate or the named capture. The capture name is *not* compared against the
pattern's capture groups. -/
def translateChecks (rule_id : String) :
    List RawCheck → Except ScannerBuilderError (List TargetedCheck)
  | [] => .ok []
  | rc :: rest =>
    match parse_candidate_variable rc.input_variable with
    | none =>
      .error (.ruleCompilationError rule_id
        (invalidVariableMessage rc.input_variable))
    | some .entire =>
      match translateChecks rule_id rest with
      | .error e => .error e
      | .ok tcs => .ok (⟨.entire⟩ :: tcs)
    | some (.capture name) =>
      match translateChecks rule_id rest with
      | .error e => .error e
      | .ok tcs => .ok (⟨.namedCapture name⟩ :: tcs)

/-- `ScannerBuilder::compile_rule_mut` (scanner.rs lines 150-223) after YAML
parsing: reject an id already present in `rule_mapping`
(`Entry::Occupied → DuplicateRuleId`), register the pattern (`add_regex`,
oracle `regexOk`; failure → `RuleCompilationError`), record the id→pattern
mapping, translate the checks, and append the built rule with its derived
validator id. On an error `try_build` short-circuits and the partially mutated
builder is discarded, so the error alone is returned. -/
def compile_rule_mut (regexOk : String → Bool) (st : BuilderState)
    (raw : RawRule) : Except ScannerBuilderError BuilderState :=
  if raw.id ∈ st.rule_mapping.map Prod.fst then
    .error (.duplicateRuleId raw.id)
  else if regexOk raw.pattern then
    match translateChecks raw.id (raw.checks.getD []) with
    | .error e => .error e
    | .ok checks =>
      .ok { rule_mapping := st.rule_mapping ++ [(raw.id, st.patterns.length)]
            patterns := st.patterns ++ [raw.pattern]
            built_rules := st.built_rules ++
              [{ rule_id := raw.id
                 pattern_id := st.patterns.length
                 validator_id := "validator-http_" ++ raw.id
                 checks := checks }] }
  else
    .error (.ruleCompilationError raw.id "pattern compilation failed")

/-- The `for rule_source in rule_sources` loop of `try_build` (scanner.rs
lines 134-136): rules are compiled in insertion order, short-circuiting on the
first error. -/
def buildGo (regexOk : String → Bool) (st : BuilderState) :
    List RawRule → Except ScannerBuilderError BuilderState
  | [] => .ok st
  | r :: rest =>
    match compile_rule_mut regexOk st r with
    | .error e => .error e
    | .ok st2 => buildGo regexOk st2 rest

/-- `ScannerBuilder::try_build` (scanner.rs lines 132-147): compile every rule
source, then compile the Hyperscan database (`try_compile`, oracle `hsOk`;
failure → `CompilationError`) and assemble the scanner, summarized by its rule
list. -/
def try_build (regexOk : String → Bool) (hsOk : List String → Bool)
    (sources : List RawRule) : Except ScannerBuilderError (List Rule) :=
  match buildGo regexOk ⟨[], [], []⟩ sources with
  | .error e => .error e
  | .ok st =>
    if hsOk st.patterns then .ok st.built_rules
    else .error (.compilationError "matcher compilation failed")

/-! ## Configuration file (crates/static-analysis-kernel/src/model/config_file.rs)

`PathPattern` compiles its string through the `globset` crate with
`literal_separator(true)`, `empty_alternates(true)` and
`backslash_escape(true)` (config_file.rs lines 162-175). `globset` is an
external library; its matching semantics are modelled here for the token
subset configuration patterns use — literal characters, backslash escapes,
`?`, `*` and `**` (character classes and alternates are not modelled). With
`literal_separator(true)`, `?` and `*` never match the separator `/`, while
`**` may. -/

/-- One compiled glob token (globset semantics, see section comment). -/
inductive GlobToken where
  | lit (c : Char)
  | one
  | star
  | globstar
deriving DecidableEq, Repr

/-- Glob pattern compilation for the modelled token subset: a backslash
escapes the next character, `**` is a recursive wildcard, `*` a
single-segment wildcard, `?` a single non-separator character, anything else
a literal. -/
def globParse : List Char → List GlobToken
  | [] => []
  | '\\' :: c :: rest => .lit c :: globParse rest
  | '*' :: '*' :: rest => .globstar :: globParse rest
  | '*' :: rest => .star :: globParse rest
  | '?' :: rest => .one :: globParse rest
  | c :: rest => .lit c :: globParse rest

/-- `star` semantics: try the continuation `m` on every suffix reachable by
consuming non-separator characters. -/
def globMatchStar (m : List Char → Bool) : List Char → Bool
  | [] => m []
  | d :: cs => m (d :: cs) || (!(d == '/') && globMatchStar m cs)

/-- `globstar` semantics: try the continuation `m` on every suffix. -/
def globMatchAll (m : List Char → Bool) : List Char → Bool
  | [] => m []
  | d :: cs => m (d :: cs) || globMatchAll m cs

/-- Glob matching with a literal separator: `one` (`?`) consumes one
non-`/` character, `star` (`*`) any run of non-`/` characters, `globstar`
(`**`) any run of characters. -/
def globMatch : List GlobToken → List Char → Bool
  | [], cs => cs.isEmpty
  | .lit c :: ts, cs =>
    match cs with
    | [] => false
    | d :: cs => c == d && globMatch ts cs
  | .one :: ts, cs =>
    match cs with
    | [] => false
    | d :: cs => !(d == '/') && globMatch ts cs
  | .star :: ts, cs => globMatchStar (globMatch ts) cs
  | .globstar :: ts, cs => globMatchAll (globMatch ts) cs

/-- `PathPattern` (config_file.rs lines 17-22): a compiled glob matcher (when
the pattern compiles) plus the raw string kept as a path. The source names
the second field after the word for a leading path segment; that name is not
available here. -/
structure PathPattern where
  glob : Option (List GlobToken)
  pathPrefix : String
deriving DecidableEq, Repr

/-- `impl From<String> for PathPattern` (config_file.rs lines 162-175). For
the modelled token subset compilation always succeeds, so `glob` is always
`some`. -/
def PathPattern.fromString (value : String) : PathPattern :=
  { glob := some (globParse value.toList), pathPrefix := value }

/-- Split a character list on the separator `/`. -/
def splitSegs : List Char → List (List Char)
  | [] => [[]]
  | c :: rest =>
    if c == '/' then [] :: splitSegs rest
    else
      match splitSegs rest with
      | [] => [[c]]
      | seg :: segs => (c :: seg) :: segs

/-- `Path::components`-based comparison for `Path::starts_with`: split on the
separator, dropping empty and `.` segments (relative paths without a root,
which is what configuration patterns contain). -/
def pathComponents (s : String) : List (List Char) :=
  (splitSegs s.toList).filter fun seg => !(seg == []) && !(seg == ['.'])

/-- `PathPattern::matches` (config_file.rs lines 152-160): the glob matches
the path, or the raw pattern string is a path-component prefix of the path. -/
def PathPattern.matches (p : PathPattern) (path : String) : Bool :=
  (match p.glob with
   | some g => globMatch g path.toList
   | none => false) ||
  (pathComponents p.pathPrefix).isPrefixOf (pathComponents path)

/-- `PathConfig` (config_file.rs lines 25-33). -/
structure PathConfig where
  only : Option (List PathPattern)
  ignore : List PathPattern
deriving DecidableEq, Repr

/-- `RuleConfig` (config_file.rs lines 41-56); `IndexMap`s become
insertion-ordered association lists, severity and category stay abstract
strings. -/
structure RuleConfig where
  paths : PathConfig
  arguments : List (String × List (String × String))
  severity : Option String
  category : Option String
deriving DecidableEq, Repr

/-- `RulesetConfig` (config_file.rs lines 59-71). -/
structure RulesetConfig where
  paths : PathConfig
  rules : List (String × RuleConfig)
deriving DecidableEq, Repr

/-- `ConfigFile` (config_file.rs lines 74-96): the parsed configuration file
without legacy fields. -/
structure ConfigFile where
  schema_version : String
  rulesets : List (String × RulesetConfig)
  paths : PathConfig
  ignore_gitignore : Option Bool
  max_file_size_kb : Option Nat
  ignore_generated_files : Option Bool
deriving DecidableEq, Repr

/-- `RawConfigFile` (config_file.rs lines 99-125): the raw format with the
legacy `ignore-paths` key. -/
structure RawConfigFile where
  schema_version : String
  rulesets : List (String × RulesetConfig)
  paths : PathConfig
  ignore_paths : Option (List PathPattern)
  ignore_gitignore : Option Bool
  max_file_size_kb : Option Nat
  ignore_generated_files : Option Bool
deriving DecidableEq, Repr

/-- `impl From<RawConfigFile> for ConfigFile` (config_file.rs lines 127-144):
copy every field; when the legacy `ignore-paths` key is present, extend
`paths.ignore` with its entries (appended after the `ignore` entries). -/
def ConfigFile.fromRaw (value : RawConfigFile) : ConfigFile :=
  { schema_version := value.schema_version
    rulesets := value.rulesets
    paths :=
      { only := value.paths.only
        ignore :=
          match value.ignore_paths with
          | some ignore => value.paths.ignore ++ ignore
          | none => value.paths.ignore }
    ignore_gitignore := value.ignore_gitignore
    max_file_size_kb := value.max_file_size_kb
    ignore_generated_files := value.ignore_generated_files }

/-- A concrete raw configuration exercising the legacy `ignore-paths` key. -/
def rawConfigExample : RawConfigFile :=
  { schema_version := "v1"
    rulesets := []
    paths := { only := none, ignore := [PathPattern.fromString "a"] }
    ignore_paths := some [PathPattern.fromString "b/*"]
    ignore_gitignore := some true
    max_file_size_kb := some 200
    ignore_generated_files := none }

theorem retryDelays_length (cfg : RetryConfig) :
    (retryDelays cfg).length = cfg.max_attempts := by
  cases cfg with
  | mk n policy => cases policy <;> simp [retryDelays]

/-- A successful exit of the rate-limit loop changes only `t` (by the waits
slept) and `rlChecks`; in particular it leaves the attempt counters untouched,
and it can only exit successfully while the elapsed time is within the
budget (the check at the top of the loop). -/
theorem rateLimitLoop_ok (env : ValidateEnv) :
    ∀ (fuel : Nat) (s s' : VState), rateLimitLoop env fuel s = .ok s' →
      s'.attempted = s.attempted ∧ s'.requests = s.requests ∧
      s'.reqStarts = s.reqStarts ∧ s'.sleeps = s.sleeps ∧
      s'.t ≤ env.maxAttemptDuration ∧ s.t ≤ s'.t := by
  intro fuel
  induction fuel with
  | zero => intro s s' h; simp [rateLimitLoop] at h
  | succ n ih =>
    intro s s' h
    rw [rateLimitLoop] at h
    by_cases ht : s.t > env.maxAttemptDuration
    · simp [ht] at h
    · rw [if_neg ht] at h
      cases hw : env.rlWait s.rlChecks s.t with
      | none =>
        simp only [hw, RLOutcome.ok.injEq] at h
        subst h
        simp only [and_self_iff, true_and, and_true, le_refl]
        omega
      | some w =>
        simp only [hw] at h
        by_cases hexc : s.t + w > env.maxAttemptDuration
        · simp [hexc] at h
        · rw [if_neg hexc] at h
          obtain ⟨h1, h2, h3, h4, h5, h6⟩ := ih _ _ h
          refine ⟨h1, h2, h3, h4, h5, ?_⟩
          simp only at h6
          omega

/-- An error exit of the rate-limit loop leaves the attempt counters and traces
untouched and is one of the two budget errors, carrying the elapsed time at the
return site; that elapsed time never exceeds `max(entry time, budget)` (for
`RetryTimeExceeded`) resp. the budget itself (for `RetryWillExceedTime`). -/
theorem rateLimitLoop_fail (env : ValidateEnv) :
    ∀ (fuel : Nat) (s : VState) (e : HttpValidatorError) (s' : VState),
      rateLimitLoop env fuel s = .fail e s' →
      s'.attempted = s.attempted ∧ s'.requests = s.requests ∧
      s'.reqStarts = s.reqStarts ∧ s'.sleeps = s.sleeps ∧
      ((e = .retryTimeExceeded s'.attempted s'.t ∧
          s'.t ≤ max s.t env.maxAttemptDuration) ∨
        (∃ w, e = .retryWillExceedTime s'.attempted s'.t w ∧
          s'.t ≤ env.maxAttemptDuration)) := by
  intro fuel
  induction fuel with
  | zero => intro s e s' h; simp [rateLimitLoop] at h
  | succ n ih =>
    intro s e s' h
    rw [rateLimitLoop] at h
    by_cases ht : s.t > env.maxAttemptDuration
    · rw [if_pos ht] at h
      simp only [RLOutcome.fail.injEq] at h
      obtain ⟨he, hs⟩ := h
      subst hs
      subst he
      exact ⟨rfl, rfl, rfl, rfl, Or.inl ⟨rfl, le_max_left _ _⟩⟩
    · rw [if_neg ht] at h
      cases hw : env.rlWait s.rlChecks s.t with
      | none => simp only [hw] at h; simp at h
      | some w =>
        simp only [hw] at h
        by_cases hexc : s.t + w > env.maxAttemptDuration
        · rw [if_pos hexc] at h
          simp only [RLOutcome.fail.injEq] at h
          obtain ⟨he, hs⟩ := h
          subst hs
          subst he
          exact ⟨rfl, rfl, rfl, rfl, Or.inr ⟨w, rfl, by omega⟩⟩
        · rw [if_neg hexc] at h
          obtain ⟨h1, h2, h3, h4, h5⟩ := ih _ _ _ h
          refine ⟨h1, h2, h3, h4, ?_⟩
          rcases h5 with ⟨he, hb⟩ | ⟨w', he, hb⟩
          · exact Or.inl ⟨he, by simp only at hb; omega⟩
          · exact Or.inr ⟨w', he, hb⟩


/-- The classifier outcomes that end the call are `Abort`, `ReturnResult` and
`Unhandled`; none of them is a retry-budget error. -/
theorem actionVerdict_finish (delay : Nat) (a : NextAction) (peek : Nat)
    (r : ValidateResult) (h : actionVerdict delay a peek = .finish r) :
    r = .err .requestedAbort ∨ (∃ c, r = .ok c) ∨ r = .err .unhandledResponse := by
  cases a with
  | abort =>
    simp only [actionVerdict, StepVerdict.finish.injEq] at h
    exact Or.inl h.symm
  | retry => simp [actionVerdict] at h
  | retryAfter d => simp [actionVerdict] at h
  | returnResult c =>
    simp only [actionVerdict, StepVerdict.finish.injEq] at h
    exact Or.inr (Or.inl ⟨c, h.symm⟩)
  | unhandled =>
    simp only [actionVerdict, StepVerdict.finish.injEq] at h
    exact Or.inr (Or.inr h.symm)

/-- Each loop iteration of `validate` sends exactly one HTTP request, so a run
over a delay list sends at most one request per delay. -/
theorem validateGo_requests_le (env : ValidateEnv) (fuel : Nat) :
    ∀ (l : List Nat) (s : VState),
      (validateGo env fuel l s).2.requests ≤ s.requests + l.length := by
  intro l
  induction l with
  | nil => intro s; simp [validateGo]
  | cons delay rest ih =>
    intro s
    rw [validateGo]
    split
    · simp
    · next e s1 heq =>
      obtain ⟨-, h2, -, -, -⟩ := rateLimitLoop_fail env fuel s e s1 heq
      simp only [List.length_cons]
      omega
    · next s1 heq =>
      obtain ⟨-, h2, -, -, -, -⟩ := rateLimitLoop_ok env fuel s s1 heq
      split
      · next hurl =>
        simp only
        split
        · next r hav =>
          simp only [List.length_cons]
          omega
        · next toSleep hav =>
          split
          · simp only [List.length_cons, List.length_nil]
            omega
          · next r2 rs =>
            split
            · next hexc =>
              simp only [List.length_cons]
              omega
            · next hexc =>
              have := ih { t := s1.t + env.requestTime s1.requests + toSleep,
                           attempted := s1.attempted + 1,
                           requests := s1.requests + 1,
                           rlChecks := s1.rlChecks,
                           reqStarts := s1.reqStarts ++ [s1.t],
                           sleeps := s1.sleeps ++ [toSleep] }
              simp only [List.length_cons] at this ⊢
              omega
      · next hurl =>
        simp only [List.length_cons]
        omega

/-- The request count never decreases during a run. -/
theorem validateGo_requests_mono (env : ValidateEnv) (fuel : Nat) :
    ∀ (l : List Nat) (s : VState),
      s.requests ≤ (validateGo env fuel l s).2.requests := by
  intro l
  induction l with
  | nil => intro s; simp [validateGo]
  | cons delay rest ih =>
    intro s
    rw [validateGo]
    split
    · simp
    · next e s1 heq =>
      obtain ⟨-, h2, -, -, -⟩ := rateLimitLoop_fail env fuel s e s1 heq
      simp only
      omega
    · next s1 heq =>
      obtain ⟨-, h2, -, -, -, -⟩ := rateLimitLoop_ok env fuel s s1 heq
      split
      · next hurl =>
        simp only
        split
        · next r hav =>
          simp only
          omega
        · next toSleep hav =>
          split
          · simp only
            omega
          · next r2 rs =>
            split
            · next hexc =>
              simp only
              omega
            · next hexc =>
              have := ih { t := s1.t + env.requestTime s1.requests + toSleep,
                           attempted := s1.attempted + 1,
                           requests := s1.requests + 1,
                           rlChecks := s1.rlChecks,
                           reqStarts := s1.reqStarts ++ [s1.t],
                           sleeps := s1.sleeps ++ [toSleep] }
              simp only at this ⊢
              omega
      · next hurl =>
        simp only
        omega

/-- `attempted` is incremented exactly when a request is sent: the two counters
advance in lockstep through a run. -/
theorem validateGo_attempted_requests (env : ValidateEnv) (fuel : Nat) :
    ∀ (l : List Nat) (s : VState) (res : ValidateResult) (s' : VState),
      validateGo env fuel l s = (res, s') →
      s'.attempted + s.requests = s'.requests + s.attempted := by
  intro l
  induction l with
  | nil =>
    intro s res s' h
    simp only [validateGo, Prod.mk.injEq] at h
    obtain ⟨-, rfl⟩ := h
    omega
  | cons delay rest ih =>
    intro s res s' h
    rw [validateGo] at h
    split at h
    · simp only [Prod.mk.injEq] at h
      obtain ⟨-, rfl⟩ := h
      omega
    · next e s1 heq =>
      obtain ⟨h1, h2, -, -, -⟩ := rateLimitLoop_fail env fuel s e s1 heq
      simp only [Prod.mk.injEq] at h
      obtain ⟨-, rfl⟩ := h
      omega
    · next s1 heq =>
      obtain ⟨h1, h2, -, -, -, -⟩ := rateLimitLoop_ok env fuel s s1 heq
      split at h
      · next hurl =>
        simp only at h
        split at h
        · next r hav =>
          simp only [Prod.mk.injEq] at h
          obtain ⟨-, rfl⟩ := h
          simp only
          omega
        · next toSleep hav =>
          split at h
          · simp only [Prod.mk.injEq] at h
            obtain ⟨-, rfl⟩ := h
            simp only
            omega
          · next r2 rs =>
            split at h
            · next hexc =>
              simp only [Prod.mk.injEq] at h
              obtain ⟨-, rfl⟩ := h
              simp only
              omega
            · next hexc =>
              have := ih _ _ _ h
              simp only at this
              omega
      · next hurl =>
        simp only [Prod.mk.injEq] at h
        obtain ⟨-, rfl⟩ := h
        omega

/-- When a run ends in `RetryAttemptsExceeded`, its `attempted` field is the
final attempt counter, every delay of the iterator was consumed with exactly
one request each, and its `elapsed` field is the elapsed time at return. -/
theorem validateGo_attempts_exceeded (env : ValidateEnv) (fuel : Nat) :
    ∀ (l : List Nat) (s : VState) (s' : VState) (a e : Nat),
      validateGo env fuel l s = (.err (.retryAttemptsExceeded a e), s') →
      a = s'.attempted ∧ s'.requests = s.requests + l.length ∧ e = s'.t := by
  intro l
  induction l with
  | nil =>
    intro s s' a e h
    simp only [validateGo, Prod.mk.injEq, ValidateResult.err.injEq,
      HttpValidatorError.retryAttemptsExceeded.injEq] at h
    obtain ⟨⟨rfl, rfl⟩, rfl⟩ := h
    simp
  | cons delay rest ih =>
    intro s s' a e h
    rw [validateGo] at h
    split at h
    · simp at h
    · next e1 s1 heq =>
      obtain ⟨-, -, -, -, hd⟩ := rateLimitLoop_fail env fuel s e1 s1 heq
      rcases hd with ⟨rfl, -⟩ | ⟨w, rfl, -⟩ <;> simp at h
    · next s1 heq =>
      obtain ⟨-, h2, -, -, -, -⟩ := rateLimitLoop_ok env fuel s s1 heq
      split at h
      · next hurl =>
        simp only at h
        split at h
        · next r hav =>
          rcases actionVerdict_finish _ _ _ _ hav with rfl | ⟨c, rfl⟩ | rfl <;>
            simp at h
        · next toSleep hav =>
          split at h
          · simp only [Prod.mk.injEq, ValidateResult.err.injEq,
              HttpValidatorError.retryAttemptsExceeded.injEq] at h
            obtain ⟨⟨rfl, rfl⟩, rfl⟩ := h
            refine ⟨rfl, ?_, rfl⟩
            simp only [List.length_cons, List.length_nil]
            omega
          · next r2 rs =>
            split at h
            · simp at h
            · next hexc =>
              have := ih _ _ _ _ h
              simp only [List.length_cons] at this ⊢
              omega
      · next hurl =>
        simp at h

/-- Time-budget invariant: provided every request lasts at most `eps`, any
`RetryTimeExceeded` or `RetryWillExceedTime` error reports an elapsed time of
at most `maxAttemptDuration + eps`, and every request begins while the elapsed
time is within `maxAttemptDuration`. -/
theorem validateGo_time_bound (env : ValidateEnv) (fuel : Nat) (eps : Nat)
    (hreq : ∀ k, env.requestTime k ≤ eps) :
    ∀ (l : List Nat) (s : VState) (res : ValidateResult) (s' : VState),
      validateGo env fuel l s = (res, s') →
      s.t ≤ env.maxAttemptDuration + eps →
      (∀ x ∈ s.reqStarts, x ≤ env.maxAttemptDuration) →
      (∀ a e, res = .err (.retryTimeExceeded a e) →
        e ≤ env.maxAttemptDuration + eps) ∧
      (∀ a e w, res = .err (.retryWillExceedTime a e w) →
        e ≤ env.maxAttemptDuration + eps) ∧
      (∀ x ∈ s'.reqStarts, x ≤ env.maxAttemptDuration) := by
  intro l
  induction l with
  | nil =>
    intro s res s' h ht hrs
    simp only [validateGo, Prod.mk.injEq] at h
    obtain ⟨rfl, rfl⟩ := h
    refine ⟨fun a e hcon => ?_, fun a e w hcon => ?_, hrs⟩ <;> simp at hcon
  | cons delay rest ih =>
    intro s res s' h ht hrs
    rw [validateGo] at h
    split at h
    · simp only [Prod.mk.injEq] at h
      obtain ⟨rfl, rfl⟩ := h
      refine ⟨fun a e hcon => ?_, fun a e w hcon => ?_, hrs⟩ <;> simp at hcon
    · next e1 s1 heq =>
      obtain ⟨-, -, h3, -, hd⟩ := rateLimitLoop_fail env fuel s e1 s1 heq
      simp only [Prod.mk.injEq] at h
      obtain ⟨rfl, rfl⟩ := h
      rcases hd with ⟨rfl, hb⟩ | ⟨w, rfl, hb⟩
      · refine ⟨?_, ?_, h3 ▸ hrs⟩
        · intro a e hcon
          simp only [ValidateResult.err.injEq,
            HttpValidatorError.retryTimeExceeded.injEq] at hcon
          obtain ⟨-, rfl⟩ := hcon
          omega
        · intro a e w hcon
          simp at hcon
      · refine ⟨?_, ?_, h3 ▸ hrs⟩
        · intro a e hcon
          simp at hcon
        · intro a e w' hcon
          simp only [ValidateResult.err.injEq,
            HttpValidatorError.retryWillExceedTime.injEq] at hcon
          obtain ⟨-, rfl, -⟩ := hcon
          omega
    · next s1 heq =>
      obtain ⟨-, -, h3, -, h5, -⟩ := rateLimitLoop_ok env fuel s s1 heq
      have hrs1 : ∀ x ∈ s1.reqStarts ++ [s1.t], x ≤ env.maxAttemptDuration := by
        intro x hx
        rcases List.mem_append.mp hx with hx | hx
        · exact hrs x (h3 ▸ hx)
        · simp only [List.mem_singleton] at hx
          omega
      split at h
      · next hurl =>
        simp only at h
        split at h
        · next r hav =>
          simp only [Prod.mk.injEq] at h
          obtain ⟨rfl, rfl⟩ := h
          rcases actionVerdict_finish _ _ _ _ hav with rfl | ⟨c, rfl⟩ | rfl <;>
            refine ⟨fun a e hcon => ?_, fun a e w hcon => ?_, hrs1⟩ <;> simp at hcon
        · next toSleep hav =>
          split at h
          · simp only [Prod.mk.injEq] at h
            obtain ⟨rfl, rfl⟩ := h
            refine ⟨fun a e hcon => ?_, fun a e w hcon => ?_, hrs1⟩ <;> simp at hcon
          · next r2 rs =>
            split at h
            · next hexc =>
              simp only [Prod.mk.injEq] at h
              obtain ⟨rfl, rfl⟩ := h
              have hrt := hreq s1.requests
              refine ⟨?_, ?_, hrs1⟩
              · intro a e hcon
                simp at hcon
              · intro a e w hcon
                simp only [ValidateResult.err.injEq,
                  HttpValidatorError.retryWillExceedTime.injEq] at hcon
                obtain ⟨-, rfl, -⟩ := hcon
                omega
            · next hexc =>
              have hrt := hreq s1.requests
              have := ih _ _ _ h (by simp only; omega)
                (by simpa using hrs1)
              simpa using this
      · next hurl =>
        simp only [Prod.mk.injEq] at h
        obtain ⟨rfl, rfl⟩ := h
        refine ⟨fun a e hcon => ?_, fun a e w hcon => ?_, h3 ▸ hrs⟩ <;> simp at hcon

/-- When the classifier always answers `Retry`, the limiter never blocks, URLs
parse, requests are instantaneous and the delays fit in the time budget, the
whole delay iterator is consumed — one request per delay — and the run ends in
`RetryAttemptsExceeded`. -/
theorem validateGo_all_retry (env : ValidateEnv) (n : Nat)
    (hcl : ∀ k, env.classify k = .retry)
    (hrl : ∀ k t, env.rlWait k t = none)
    (hurl : ∀ k, env.urlOk k = true)
    (hreq : ∀ k, env.requestTime k = 0) :
    ∀ (l : List Nat) (s : VState),
      s.t + l.sum < env.maxAttemptDuration →
      ∃ s', validateGo env (n + 1) l s =
          (.err (.retryAttemptsExceeded (s.attempted + l.length) s'.t), s') ∧
        s'.requests = s.requests + l.length := by
  intro l
  induction l with
  | nil =>
    intro s hsum
    exact ⟨s, by simp [validateGo], by simp⟩
  | cons delay rest ih =>
    intro s hsum
    have hsum' : delay + rest.sum ≤ (delay :: rest).sum := by simp
    have hstep : rateLimitLoop env (n + 1) s =
        .ok { s with rlChecks := s.rlChecks + 1 } := by
      rw [rateLimitLoop]
      rw [if_neg (by simp only [List.sum_cons] at hsum; omega)]
      simp only [hrl]
    rw [validateGo, hstep]
    simp only [hurl, if_true, hcl, hreq, actionVerdict, Nat.add_zero]
    cases rest with
    | nil =>
      refine ⟨{ s with
          attempted := s.attempted + 1
          requests := s.requests + 1
          rlChecks := s.rlChecks + 1
          reqStarts := s.reqStarts ++ [s.t] }, rfl, ?_⟩
      simp
    | cons r2 rs =>
      simp only [List.sum_cons] at hsum
      rw [if_neg (by omega)]
      obtain ⟨s', hgo, hreqs⟩ := ih
        { s with
          t := s.t + delay
          attempted := s.attempted + 1
          requests := s.requests + 1
          rlChecks := s.rlChecks + 1
          reqStarts := s.reqStarts ++ [s.t]
          sleeps := s.sleeps ++ [delay] }
        (by simp only [List.sum_cons]; omega)
      refine ⟨s', ?_, ?_⟩
      · rw [hgo]
        dsimp only
        simp only [List.length_cons]
        have harith : s.attempted + 1 + (rs.length + 1) =
            s.attempted + (rs.length + 1 + 1) := by omega
        rw [harith]
      · dsimp only at hreqs
        simp only [List.length_cons] at hreqs ⊢
        omega

/-- After a successful rate-limit loop and URL parse, an iteration sends its
request: the final request count exceeds the pre-request count. -/
theorem validateGo_pos (env : ValidateEnv) (fuel : Nat) (d : Nat)
    (rest : List Nat) (s s1 : VState)
    (hstep : rateLimitLoop env fuel s = .ok s1)
    (hurl : env.urlOk s1.requests = true) :
    s1.requests + 1 ≤ (validateGo env fuel (d :: rest) s).2.requests := by
  rw [validateGo, hstep]
  simp only [hurl, if_true]
  split
  · simp
  · next toSleep hav =>
    cases rest with
    | nil => simp
    | cons r2 rs =>
      dsimp only
      by_cases hexc :
          env.maxAttemptDuration ≤ s1.t + env.requestTime s1.requests + toSleep
      · rw [if_pos hexc]
      · rw [if_neg hexc]
        have := validateGo_requests_mono env fuel (r2 :: rs)
          { t := s1.t + env.requestTime s1.requests + toSleep,
            attempted := s1.attempted + 1,
            requests := s1.requests + 1,
            rlChecks := s1.rlChecks,
            reqStarts := s1.reqStarts ++ [s1.t],
            sleeps := s1.sleeps ++ [toSleep] }
        simpa using this

/-- C1: for every retry configuration with `max_attempts = N` and every
environment, one `HttpValidator::validate` call sends at most `N` HTTP
requests — one per delay yielded by the retry-delay iterator — and, when the
first attempt is permitted (limiter open, URL parses, the inner loop has
fuel and `max_attempts ≥ 1`), at least one request is sent. -/
theorem http_validate_attempt_bounds (cfg : RetryConfig) (env : ValidateEnv)
    (fuel : Nat) :
    (validate env fuel (retryDelays cfg)).2.requests ≤ cfg.max_attempts ∧
    ((∀ t, env.rlWait 0 t = none) → env.urlOk 0 = true → 1 ≤ fuel →
      1 ≤ cfg.max_attempts →
      1 ≤ (validate env fuel (retryDelays cfg)).2.requests) := by
  constructor
  · have h := validateGo_requests_le env fuel (retryDelays cfg) ⟨0, 0, 0, 0, [], []⟩
    rw [retryDelays_length] at h
    simpa [validate] using h
  · intro hrl0 hurl0 hfuel hatt
    obtain ⟨d, rest, hdl⟩ : ∃ d rest, retryDelays cfg = d :: rest := by
      cases hl : retryDelays cfg with
      | nil =>
        have := retryDelays_length cfg
        rw [hl] at this
        simp at this
        omega
      | cons d rest => exact ⟨d, rest, rfl⟩
    obtain ⟨n, rfl⟩ : ∃ n, fuel = n + 1 := ⟨fuel - 1, by omega⟩
    have hstep : rateLimitLoop env (n + 1) ⟨0, 0, 0, 0, [], []⟩ =
        .ok ⟨0, 0, 0, 1, [], []⟩ := by
      rw [rateLimitLoop]
      rw [if_neg (by simp)]
      simp only [hrl0]
    have := validateGo_pos env (n + 1) d rest ⟨0, 0, 0, 0, [], []⟩
      ⟨0, 0, 0, 1, [], []⟩ hstep hurl0
    rw [validate, hdl]
    omega

/-- C1 witness: a fixed policy with one attempt sends exactly one request. -/
theorem http_validate_attempt_bounds_witness :
    (validate envAllRetry 1 (retryDelays ⟨1, .fixed 5⟩)).2.requests ≤ 1 ∧
    1 ≤ (validate envAllRetry 1 (retryDelays ⟨1, .fixed 5⟩)).2.requests :=
  ⟨(http_validate_attempt_bounds ⟨1, .fixed 5⟩ envAllRetry 1).1,
    (http_validate_attempt_bounds ⟨1, .fixed 5⟩ envAllRetry 1).2
      (fun _ => rfl) rfl (by decide) (by decide)⟩

/-- C2 counterexample: with scheduled delays `[10, 20]` and a first response of
`RetryAfter(30)`, the next scheduled (peeked) delay is `δ = 20 < 30 = d`, yet
the sleep actually performed before the second attempt is
`delay + (d − δ) = 10 + 10 = 20 < 30`: the `Retry-After` hint is *not* honoured
in full, because the adjustment is computed against the peeked next delay while
the sleep that follows uses the current delay. -/
theorem http_validate_retry_after_counterexample :
    envRetryAfter30.classify 0 = .retryAfter 30 ∧
    (validate envRetryAfter30 2 [10, 20]).2.sleeps = [20] ∧
    (validate envRetryAfter30 2 [10, 20]).2.requests = 2 ∧
    (validate envRetryAfter30 2 [10, 20]).1 = .ok ⟨0⟩ ∧
    (20 : Nat) < 30 := by
  refine ⟨rfl, ?_, ?_, ?_, by omega⟩ <;> decide

/-- C2 amended: when the classifier answers `RetryAfter(d)` on the first
attempt and another attempt remains, the sleep performed before the next
attempt is `delay + (d ∸ δ)` where `delay` is the current scheduled delay and
`δ` the peeked next one; this is at least `d` whenever `δ ≤ delay` (for
instance under a fixed policy), but not in general. -/
theorem http_validate_retry_after_sleep (env : ValidateEnv) (n d0 d1 h : Nat)
    (hc0 : env.classify 0 = .retryAfter h)
    (hrl : ∀ k t, env.rlWait k t = none)
    (hurl : ∀ k, env.urlOk k = true)
    (hreq : ∀ k, env.requestTime k = 0)
    (hbudget : d0 + (h - d1) < env.maxAttemptDuration) :
    (validate env (n + 1) [d0, d1]).2.sleeps = [d0 + (h - d1)] ∧
    (d1 ≤ d0 → h ≤ d0 + (h - d1)) := by
  refine ⟨?_, fun hle => by omega⟩
  have hstep0 : rateLimitLoop env (n + 1) ⟨0, 0, 0, 0, [], []⟩ =
      .ok ⟨0, 0, 0, 1, [], []⟩ := by
    rw [rateLimitLoop]
    rw [if_neg (by simp)]
    simp only [hrl]
  rw [validate, validateGo, hstep0]
  simp only [hurl, if_true, hreq, hc0, actionVerdict, Nat.add_zero]
  rw [if_neg (by simpa using hbudget)]
  simp only [List.head?_cons, Option.getD_some, Nat.zero_add, List.nil_append]
  have hstep1 : rateLimitLoop env (n + 1)
      ⟨d0 + (h - d1), 1, 1, 1, [0], [d0 + (h - d1)]⟩ =
      .ok ⟨d0 + (h - d1), 1, 1, 2, [0], [d0 + (h - d1)]⟩ := by
    rw [rateLimitLoop]
    rw [if_neg (by simp only; omega)]
    simp only [hrl]
  rw [validateGo, hstep1]
  simp only [hurl, if_true]
  split
  · rfl
  · next toSleep hav =>
    rfl

/-- C2 amended witness: under a fixed delay sequence `[10, 10]` the
`Retry-After: 30` hint is honoured in full (sleep `30 ≥ 30`). -/
theorem http_validate_retry_after_sleep_witness :
    (validate envRetryAfter30 2 [10, 10]).2.sleeps = [10 + (30 - 10)] ∧
    (10 ≤ 10 → 30 ≤ 10 + (30 - 10)) :=
  http_validate_retry_after_sleep envRetryAfter30 1 10 10 30 rfl
    (fun _ _ => rfl) (fun _ => rfl) (fun _ => rfl) (by decide)

/-- C3: when every HTTP round-trip lasts at most `eps`, the elapsed time
reported by a `RetryTimeExceeded` or `RetryWillExceedTime` return is at most
`max_attempt_duration + eps`, and every request begins while the elapsed time
is still within `max_attempt_duration` (only an in-flight request may
overrun). -/
theorem http_validate_time_budget (env : ValidateEnv) (fuel : Nat)
    (delays : List Nat) (eps : Nat)
    (hreq : ∀ k, env.requestTime k ≤ eps) :
    (∀ a e, (validate env fuel delays).1 = .err (.retryTimeExceeded a e) →
      e ≤ env.maxAttemptDuration + eps) ∧
    (∀ a e w, (validate env fuel delays).1 = .err (.retryWillExceedTime a e w) →
      e ≤ env.maxAttemptDuration + eps) ∧
    (∀ x ∈ (validate env fuel delays).2.reqStarts,
      x ≤ env.maxAttemptDuration) := by
  have h := validateGo_time_bound env fuel eps hreq delays ⟨0, 0, 0, 0, [], []⟩
    (validate env fuel delays).1 (validate env fuel delays).2 rfl
    (by simp) (by simp)
  exact h

/-- C3 witness: a run that fails with `RetryWillExceedTime` elapsed 0, within
the 5-unit budget. -/
theorem http_validate_time_budget_witness :
    (validate envTight 1 [10, 10]).1 = .err (.retryWillExceedTime 1 0 10) ∧
    (0 : Nat) ≤ envTight.maxAttemptDuration + 0 :=
  ⟨by decide,
    (http_validate_time_budget envTight 1 [10, 10] 0 fun _ => Nat.le_refl 0).2.1
      1 0 10 (by decide)⟩

/-- C4: rate-limiter waits never advance the retry-delay iterator or the
`attempted` counter — `attempted` always equals the number of requests sent,
and whenever the run ends in `RetryAttemptsExceeded` (in particular in every
run in which the limiter merely delayed attempts) the number of requests is
exactly `max_attempts`; a limiter wait is charged only against the time
budget: if it does not fit, the run fails with `RetryWillExceedTime`. -/
theorem http_validate_rate_limit_attempts (cfg : RetryConfig)
    (env : ValidateEnv) (fuel : Nat) :
    (validate env fuel (retryDelays cfg)).2.attempted =
      (validate env fuel (retryDelays cfg)).2.requests ∧
    (∀ a e, (validate env fuel (retryDelays cfg)).1 =
        .err (.retryAttemptsExceeded a e) →
      (validate env fuel (retryDelays cfg)).2.requests = cfg.max_attempts) ∧
    (∀ s w, s.t ≤ env.maxAttemptDuration →
      env.rlWait s.rlChecks s.t = some w →
      s.t + w > env.maxAttemptDuration →
      rateLimitLoop env (fuel + 1) s =
        .fail (.retryWillExceedTime s.attempted s.t w) s) := by
  refine ⟨?_, ?_, ?_⟩
  · have h := validateGo_attempted_requests env fuel (retryDelays cfg)
      ⟨0, 0, 0, 0, [], []⟩ (validate env fuel (retryDelays cfg)).1
      (validate env fuel (retryDelays cfg)).2 rfl
    simpa using h
  · intro a e hres
    have hpair : validate env fuel (retryDelays cfg) =
        (.err (.retryAttemptsExceeded a e),
          (validate env fuel (retryDelays cfg)).2) := by
      rw [← hres]
    have h := validateGo_attempts_exceeded env fuel (retryDelays cfg)
      ⟨0, 0, 0, 0, [], []⟩ (validate env fuel (retryDelays cfg)).2 a e hpair
    rw [retryDelays_length] at h
    simpa using h.2.1
  · intro s w hle hw hover
    rw [rateLimitLoop]
    rw [if_neg (by omega)]
    simp only [hw]
    rw [if_pos hover]

/-- C4 witness: with a limiter that delays the first check by 3 units,
`max_attempts = 3` still yields 3 requests. -/
theorem http_validate_rate_limit_attempts_witness :
    (validate envLimited 5 (retryDelays ⟨3, .fixed 1⟩)).2.requests = 3 :=
  (http_validate_rate_limit_attempts ⟨3, .fixed 1⟩ envLimited 5).2.1 3 5
    (by decide)

/-- C5: when the classifier answers `Retry` for every response (limiter open,
URLs valid, instantaneous requests), `validate` consumes the whole iterator —
one request per delay — and fails with `RetryAttemptsExceeded` whose
`attempted` field equals the number of requests sent; in the boundary case of
a single delay (`max_attempts = 1`) it fails after exactly one request with
no sleep performed after that request. -/
theorem http_validate_attempts_exhausted (env : ValidateEnv) (n : Nat)
    (hcl : ∀ k, env.classify k = .retry)
    (hrl : ∀ k t, env.rlWait k t = none)
    (hurl : ∀ k, env.urlOk k = true)
    (hreq : ∀ k, env.requestTime k = 0) :
    (∀ delays : List Nat, delays.sum < env.maxAttemptDuration →
      (validate env (n + 1) delays).1 =
        .err (.retryAttemptsExceeded delays.length
          (validate env (n + 1) delays).2.t) ∧
      (validate env (n + 1) delays).2.requests = delays.length) ∧
    (∀ d : Nat,
      (validate env (n + 1) [d]).1 = .err (.retryAttemptsExceeded 1 0) ∧
      (validate env (n + 1) [d]).2.requests = 1 ∧
      (validate env (n + 1) [d]).2.sleeps = []) := by
  constructor
  · intro delays hsum
    obtain ⟨s', hgo, hreqs⟩ := validateGo_all_retry env n hcl hrl hurl hreq
      delays ⟨0, 0, 0, 0, [], []⟩ (by simpa using hsum)
    rw [validate, hgo]
    simpa using hreqs
  · intro d
    have hstep : rateLimitLoop env (n + 1) ⟨0, 0, 0, 0, [], []⟩ =
        .ok ⟨0, 0, 0, 1, [], []⟩ := by
      rw [rateLimitLoop]
      rw [if_neg (by simp)]
      simp only [hrl]
    rw [validate, validateGo, hstep]
    simp only [hurl, if_true, hreq, hcl, actionVerdict]
    refine ⟨?_, ?_, ?_⟩ <;> trivial

/-- C5 witness: two delays give two requests then `RetryAttemptsExceeded`;
one delay gives exactly one request, no sleep. -/
theorem http_validate_attempts_exhausted_witness :
    ((validate envAllRetry 1 [3, 4]).1 =
        .err (.retryAttemptsExceeded 2 (validate envAllRetry 1 [3, 4]).2.t) ∧
      (validate envAllRetry 1 [3, 4]).2.requests = 2) ∧
    ((validate envAllRetry 1 [5]).1 = .err (.retryAttemptsExceeded 1 0) ∧
      (validate envAllRetry 1 [5]).2.requests = 1 ∧
      (validate envAllRetry 1 [5]).2.sleeps = []) :=
  ⟨(http_validate_attempts_exhausted envAllRetry 0 (fun _ => rfl)
      (fun _ _ => rfl) (fun _ => rfl) (fun _ => rfl)).1 [3, 4] (by decide),
    (http_validate_attempts_exhausted envAllRetry 0 (fun _ => rfl)
      (fun _ _ => rfl) (fun _ => rfl) (fun _ => rfl)).2 5⟩

/-- C6: `HttpValidator::validate` never consults the `attempted_cache` field
(it is declared at http.rs line 72 but neither read nor written in the method),
so a call for a candidate that was already submitted — modelled by
`envSecondCall`, whose shared rate limiter was primed by the first call, the
only cross-call state `validate` reads — still issues an HTTP request instead
of being suppressed. -/
theorem http_validate_no_dedup :
    (validate envSecondCall 4 [5]).1 = .ok ⟨0⟩ ∧
    (validate envSecondCall 4 [5]).2.requests = 1 ∧
    (validate envSecondCall 4 [5]).2.rlChecks = 2 := by
  refine ⟨?_, ?_, ?_⟩ <;> decide

/-- Processing a concatenation of rule sources processes the first part and,
if it succeeds, continues with the second from the resulting state. -/
theorem buildGo_append (regexOk : String → Bool) :
    ∀ (l1 l2 : List RawRule) (st : BuilderState),
      buildGo regexOk st (l1 ++ l2) =
        match buildGo regexOk st l1 with
        | .error e => .error e
        | .ok st2 => buildGo regexOk st2 l2 := by
  intro l1
  induction l1 with
  | nil => intro l2 st; simp [buildGo]
  | cons r l1 ih =>
    intro l2 st
    rw [List.cons_append, buildGo, buildGo]
    cases compile_rule_mut regexOk st r with
    | error e => rfl
    | ok st2 => exact ih l2 st2

/-- Rule sources whose ids are fresh and pairwise distinct, whose patterns
compile and whose checks translate are all processed: each registers its
pattern and appends its rule, in order. -/
theorem buildGo_success (regexOk : String → Bool) :
    ∀ (l : List RawRule) (st : BuilderState),
      (∀ r ∈ l, regexOk r.pattern = true) →
      (∀ r ∈ l, ∃ tcs, translateChecks r.id (r.checks.getD []) = .ok tcs) →
      (∀ r ∈ l, r.id ∉ st.rule_mapping.map Prod.fst) →
      (l.map RawRule.id).Nodup →
      ∃ st', buildGo regexOk st l = .ok st' ∧
        st'.rule_mapping.map Prod.fst =
          st.rule_mapping.map Prod.fst ++ l.map RawRule.id ∧
        st'.built_rules.map Rule.rule_id =
          st.built_rules.map Rule.rule_id ++ l.map RawRule.id ∧
        st'.built_rules.length = st.built_rules.length + l.length ∧
        st'.patterns = st.patterns ++ l.map RawRule.pattern := by
  intro l
  induction l with
  | nil =>
    intro st _ _ _ _
    exact ⟨st, by simp [buildGo]⟩
  | cons r l ih =>
    intro st hre hch hfresh hnd
    have hre0 := hre r (by simp)
    obtain ⟨tcs, htcs⟩ := hch r (by simp)
    have hfresh0 := hfresh r (by simp)
    obtain ⟨hnotl, hndl⟩ : (∀ x ∈ l, ¬ x.id = r.id) ∧ (l.map RawRule.id).Nodup :=
      by simpa using hnd
    rw [buildGo, compile_rule_mut, if_neg hfresh0, if_pos hre0, htcs]
    obtain ⟨st', hgo, hfst, hrids, hlen, hpats⟩ := ih
      { rule_mapping := st.rule_mapping ++ [(r.id, st.patterns.length)]
        patterns := st.patterns ++ [r.pattern]
        built_rules := st.built_rules ++
          [{ rule_id := r.id
             pattern_id := st.patterns.length
             validator_id := "validator-http_" ++ r.id
             checks := tcs }] }
      (fun q hq => hre q (by simp [hq]))
      (fun q hq => hch q (by simp [hq]))
      (by
        intro q hq
        simp only [List.map_append, List.map_cons, List.map_nil]
        intro hmem
        rcases List.mem_append.mp hmem with hmem | hmem
        · exact hfresh q (by simp [hq]) hmem
        · simp only [List.mem_singleton] at hmem
          exact absurd hmem (hnotl q hq))
      hndl
    refine ⟨st', hgo, ?_, ?_, ?_, ?_⟩
    · rw [hfst]
      simp
    · rw [hrids]
      simp
    · rw [hlen]
      simp only [List.length_append, List.length_cons, List.length_nil]
      omega
    · rw [hpats]
      simp

/-- C7: in `try_build`, a rule source whose id already occurred among the
(successfully compiled, pairwise distinct) earlier sources fails the build
with `DuplicateRuleId` naming that id; when all ids are distinct, every
pattern compiles, every check translates and the matcher compiles, the built
scanner contains exactly one rule per source, in order. -/
theorem scanner_try_build_rule_ids (regexOk : String → Bool)
    (hsOk : List String → Bool) :
    (∀ (pre : List RawRule) (r : RawRule) (post : List RawRule),
      (∀ q ∈ pre, regexOk q.pattern = true) →
      (∀ q ∈ pre, ∃ tcs, translateChecks q.id (q.checks.getD []) = .ok tcs) →
      (pre.map RawRule.id).Nodup →
      r.id ∈ pre.map RawRule.id →
      try_build regexOk hsOk (pre ++ r :: post) =
        .error (.duplicateRuleId r.id)) ∧
    (∀ sources : List RawRule,
      (sources.map RawRule.id).Nodup →
      (∀ q ∈ sources, regexOk q.pattern = true) →
      (∀ q ∈ sources, ∃ tcs, translateChecks q.id (q.checks.getD []) = .ok tcs) →
      hsOk (sources.map RawRule.pattern) = true →
      ∃ rules, try_build regexOk hsOk sources = .ok rules ∧
        rules.length = sources.length ∧
        rules.map Rule.rule_id = sources.map RawRule.id) := by
  constructor
  · intro pre r post hre hch hnd hdup
    obtain ⟨st', hgo, hfst, -, -, -⟩ := buildGo_success regexOk pre
      ⟨[], [], []⟩ hre hch (by simp) hnd
    have hprop : buildGo regexOk ⟨[], [], []⟩ (pre ++ r :: post) =
        .error (.duplicateRuleId r.id) := by
      rw [buildGo_append, hgo]
      show buildGo regexOk st' (r :: post) = _
      rw [buildGo, compile_rule_mut,
        if_pos (by rw [hfst]; simpa using hdup)]
    rw [try_build, hprop]
  · intro sources hnd hre hch hhs
    obtain ⟨st', hgo, hfst, hrids, hlen, hpats⟩ := buildGo_success regexOk
      sources ⟨[], [], []⟩ hre hch (by simp) hnd
    refine ⟨st'.built_rules, ?_, ?_, ?_⟩
    · have hp : hsOk st'.patterns = true := by rw [hpats]; simpa using hhs
      rw [try_build, hgo]
      simp [hp]
    · have := congrArg List.length hrids
      simpa using this
    · simpa using hrids

/-- C7 witness: two sources sharing id `rule-one` fail with `DuplicateRuleId`;
two sources with distinct ids build a scanner with both rules, in order. -/
theorem scanner_try_build_rule_ids_witness :
    (try_build (fun _ => true) (fun _ => true)
      [⟨"rule-one", "p1", none⟩, ⟨"rule-one", "p2", none⟩] =
      .error (.duplicateRuleId "rule-one")) ∧
    (∃ rules, try_build (fun _ => true) (fun _ => true)
        [⟨"rule-one", "p1", none⟩, ⟨"rule-two", "p2", none⟩] = .ok rules ∧
      rules.length = 2 ∧
      rules.map Rule.rule_id = ["rule-one", "rule-two"]) :=
  ⟨(scanner_try_build_rule_ids (fun _ => true) (fun _ => true)).1
      [⟨"rule-one", "p1", none⟩] ⟨"rule-one", "p2", none⟩ []
      (fun q _ => rfl)
      (fun q hq => ⟨[], by
        simp only [List.mem_singleton] at hq
        subst hq
        rfl⟩)
      (by simp)
      (by simp),
    (scanner_try_build_rule_ids (fun _ => true) (fun _ => true)).2
      [⟨"rule-one", "p1", none⟩, ⟨"rule-two", "p2", none⟩]
      (by simp)
      (fun q _ => rfl)
      (fun q hq => ⟨[], by
        rcases List.mem_cons.mp hq with rfl | hq
        · rfl
        · simp only [List.mem_singleton] at hq
          subst hq
          rfl⟩)
      rfl⟩

/-- The first check whose input variable fails to parse aborts the check
translation with `RuleCompilationError` for that variable. -/
theorem translateChecks_append_error (rid : String) :
    ∀ (pre : List RawCheck) (c : RawCheck) (post : List RawCheck),
      (∀ c2 ∈ pre, (parse_candidate_variable c2.input_variable).isSome) →
      parse_candidate_variable c.input_variable = none →
      translateChecks rid (pre ++ c :: post) =
        .error (.ruleCompilationError rid
          (invalidVariableMessage c.input_variable)) := by
  intro pre
  induction pre with
  | nil =>
    intro c post _ hc
    simp [translateChecks, hc]
  | cons c2 pre ih =>
    intro c post hpre hc
    obtain ⟨v, hv⟩ := Option.isSome_iff_exists.mp (hpre c2 (by simp))
    have hrec := ih c post (fun q hq => hpre q (by simp [hq])) hc
    cases v with
    | entire => simp [translateChecks, hv, hrec]
    | capture name => simp [translateChecks, hv, hrec]

/-- When every check's input variable parses, the whole check list
translates. -/
theorem translateChecks_all_ok (rid : String) :
    ∀ checks : List RawCheck,
      (∀ c ∈ checks, (parse_candidate_variable c.input_variable).isSome) →
      ∃ tcs, translateChecks rid checks = .ok tcs := by
  intro checks
  induction checks with
  | nil => intro _; exact ⟨[], rfl⟩
  | cons c rest ih =>
    intro hall
    obtain ⟨v, hv⟩ := Option.isSome_iff_exists.mp (hall c (by simp))
    obtain ⟨tcs, htcs⟩ := ih fun q hq => hall q (by simp [hq])
    cases v with
    | entire => exact ⟨⟨.entire⟩ :: tcs, by simp [translateChecks, hv, htcs]⟩
    | capture name =>
      exact ⟨⟨.namedCapture name⟩ :: tcs, by simp [translateChecks, hv, htcs]⟩

/-- C8 counterexample: the pattern `abc_[0-9]` contains no named capture
group at all, yet a check targeting `candidate.captures.foo` compiles: the
build succeeds and defers the missing capture to scan time, where the check
simply fails — `try_build` does *not* raise `RuleCompilationError` for a
capture name absent from the rule's own pattern. -/
theorem scanner_capture_check_counterexample :
    try_build (fun _ => true) (fun _ => true)
      [{ id := "rule-one", pattern := "abc_[0-9]",
         checks := some [⟨"candidate.captures.foo"⟩] }] =
    .ok [{ rule_id := "rule-one", pattern_id := 0,
           validator_id := "validator-http_rule-one",
           checks := [⟨.namedCapture "foo"⟩] }] := by
  rfl

/-- C8 amended: during `try_build`, a check causes `RuleCompilationError` for
its rule exactly when its input variable fails to parse as `candidate` or
`candidate.captures.<name>` — the error is raised at build time; but a
syntactically valid capture reference is accepted no matter whether the
pattern defines that capture group. -/
theorem scanner_check_variable_validation (regexOk : String → Bool)
    (hsOk : List String → Bool) (id pat : String) (checks : List RawCheck)
    (hre : regexOk pat = true) :
    (∀ (pre : List RawCheck) (c : RawCheck) (post : List RawCheck),
      checks = pre ++ c :: post →
      (∀ c2 ∈ pre, (parse_candidate_variable c2.input_variable).isSome) →
      parse_candidate_variable c.input_variable = none →
      try_build regexOk hsOk [{ id := id, pattern := pat, checks := some checks }] =
        .error (.ruleCompilationError id
          (invalidVariableMessage c.input_variable))) ∧
    ((∀ c ∈ checks, (parse_candidate_variable c.input_variable).isSome) →
      hsOk [pat] = true →
      ∃ tcs, try_build regexOk hsOk
          [{ id := id, pattern := pat, checks := some checks }] =
        .ok [{ rule_id := id, pattern_id := 0,
               validator_id := "validator-http_" ++ id, checks := tcs }]) := by
  constructor
  · intro pre c post hceq hpre hc
    have htr := translateChecks_append_error id pre c post hpre hc
    rw [try_build, buildGo, compile_rule_mut, if_neg (by simp), if_pos hre]
    rw [show ({ id := id, pattern := pat, checks := some checks } :
        RawRule).checks.getD [] = checks from rfl]
    rw [hceq, htr]
  · intro hall hhs
    obtain ⟨tcs, htr⟩ := translateChecks_all_ok id checks hall
    refine ⟨tcs, ?_⟩
    rw [try_build, buildGo, compile_rule_mut, if_neg (by simp), if_pos hre]
    rw [show ({ id := id, pattern := pat, checks := some checks } :
        RawRule).checks.getD [] = checks from rfl]
    rw [htr]
    show (if hsOk [pat] = true then _ else _) = _
    rw [if_pos hhs]
    rfl

/-- C8 amended witness: an unparseable variable fails the build with
`RuleCompilationError`; a parseable capture reference builds. -/
theorem scanner_check_variable_validation_witness :
    (try_build (fun _ => true) (fun _ => true)
        [{ id := "r", pattern := "p", checks := some [⟨"nope"⟩] }] =
      .error (.ruleCompilationError "r" (invalidVariableMessage "nope"))) ∧
    (∃ tcs, try_build (fun _ => true) (fun _ => true)
        [{ id := "r", pattern := "p",
           checks := some [⟨"candidate.captures.foo"⟩] }] =
      .ok [{ rule_id := "r", pattern_id := 0,
             validator_id := "validator-http_" ++ "r", checks := tcs }]) :=
  ⟨(scanner_check_variable_validation (fun _ => true) (fun _ => true)
      "r" "p" [⟨"nope"⟩] rfl).1 [] ⟨"nope"⟩ [] rfl (by simp) (by rfl),
    (scanner_check_variable_validation (fun _ => true) (fun _ => true)
      "r" "p" [⟨"candidate.captures.foo"⟩] rfl).2
      (by
        intro c hc
        simp only [List.mem_singleton] at hc
        subst hc
        rfl)
      rfl⟩

/-- Whatever a `*` consumes is a run of non-separator characters: a successful
`star` match splits the input into a separator-free consumed part and a
suffix accepted by the rest of the pattern. -/
theorem globMatchStar_split (m : List Char → Bool) :
    ∀ cs : List Char, globMatchStar m cs = true →
      ∃ pre suf, cs = pre ++ suf ∧ (∀ c ∈ pre, c ≠ '/') ∧ m suf = true := by
  intro cs
  induction cs with
  | nil =>
    intro h
    exact ⟨[], [], rfl, by simp, by simpa [globMatchStar] using h⟩
  | cons d cs ih =>
    intro h
    rw [globMatchStar] at h
    simp only [Bool.or_eq_true, Bool.and_eq_true] at h
    rcases h with h | ⟨hd, h⟩
    · exact ⟨[], d :: cs, rfl, by simp, h⟩
    · obtain ⟨pre, suf, heq, hpre, hm⟩ := ih h
      refine ⟨d :: pre, suf, by rw [heq, List.cons_append], ?_, hm⟩
      intro c hc
      rcases List.mem_cons.mp hc with rfl | hc
      · simpa using hd
      · exact hpre c hc

/-- C9: configuration path patterns are compiled with `/` as a literal
separator — whatever a single `*` consumes contains no `/` — so
`foo/*.go` does not match `foo/bar/baz.go` but does match `foo/baz.go`. -/
theorem path_pattern_literal_separator :
    (∀ (ts : List GlobToken) (cs : List Char),
      globMatch (.star :: ts) cs = true →
      ∃ pre suf, cs = pre ++ suf ∧ (∀ c ∈ pre, c ≠ '/') ∧
        globMatch ts suf = true) ∧
    (PathPattern.fromString "foo/*.go").matches "foo/bar/baz.go" = false ∧
    (PathPattern.fromString "foo/*.go").matches "foo/baz.go" = true := by
  refine ⟨?_, by decide, by decide⟩
  intro ts cs h
  rw [globMatch] at h
  exact globMatchStar_split (globMatch ts) cs h

/-- C9 witness: the star-consumption property instantiated at a concrete
match. -/
theorem path_pattern_literal_separator_witness :
    ∃ pre suf, ['a', 'b'] = pre ++ suf ∧ (∀ c ∈ pre, c ≠ '/') ∧
      globMatch [] suf = true :=
  path_pattern_literal_separator.1 [] ['a', 'b'] (by decide)

/-- C10: converting a raw configuration with the legacy `ignore-paths` key
appends its entries to `paths.ignore` after the entries of the `ignore` key
and alters nothing else. -/
theorem config_file_from_raw_ignore_paths (raw : RawConfigFile)
    (l : List PathPattern) (h : raw.ignore_paths = some l) :
    (ConfigFile.fromRaw raw).paths.ignore = raw.paths.ignore ++ l ∧
    (ConfigFile.fromRaw raw).paths.only = raw.paths.only ∧
    (ConfigFile.fromRaw raw).schema_version = raw.schema_version ∧
    (ConfigFile.fromRaw raw).rulesets = raw.rulesets ∧
    (ConfigFile.fromRaw raw).ignore_gitignore = raw.ignore_gitignore ∧
    (ConfigFile.fromRaw raw).max_file_size_kb = raw.max_file_size_kb ∧
    (ConfigFile.fromRaw raw).ignore_generated_files =
      raw.ignore_generated_files := by
  refine ⟨?_, ?_, ?_, ?_, ?_, ?_, ?_⟩ <;> simp [ConfigFile.fromRaw, h]

/-- C10 witness: the conversion evaluated on `rawConfigExample`. -/
theorem config_file_from_raw_ignore_paths_witness :
    (ConfigFile.fromRaw rawConfigExample).paths.ignore =
      rawConfigExample.paths.ignore ++ [PathPattern.fromString "b/*"] ∧
    (ConfigFile.fromRaw rawConfigExample).paths.only =
      rawConfigExample.paths.only ∧
    (ConfigFile.fromRaw rawConfigExample).schema_version =
      rawConfigExample.schema_version ∧
    (ConfigFile.fromRaw rawConfigExample).rulesets =
      rawConfigExample.rulesets ∧
    (ConfigFile.fromRaw rawConfigExample).ignore_gitignore =
      rawConfigExample.ignore_gitignore ∧
    (ConfigFile.fromRaw rawConfigExample).max_file_size_kb =
      rawConfigExample.max_file_size_kb ∧
    (ConfigFile.fromRaw rawConfigExample).ignore_generated_files =
      rawConfigExample.ignore_generated_files :=
  config_file_from_raw_ignore_paths rawConfigExample
    [PathPattern.fromString "b/*"] rfl

end Secrets
